import Mathlib

/-!
Verification of the AI-Mock-Interviewer backend (src/main.py) against its
natural-language specification.

The service is shallowly embedded: the pure post-processing of model
responses (question extraction, Markdown fence stripping, JSON feedback
normalization), the Redis-backed question cache (keyed by a hash of
title ++ description, storing `str(list)` and reading it back with `eval`),
and the per-client rate limiter are modelled as executable Lean functions
over explicit state.  The model response, the hash function used for the
cache key, and the cache contents are inputs of the model, since they are
external to the code under verification.
-/

namespace MockInterviewer

/- ### Character constants
Written via `Char.ofNat` so that the embedding is explicit about the exact
code points the Python source manipulates. -/

def bslash : Char := Char.ofNat 92

def squote : Char := Char.ofNat 39

def dquote : Char := Char.ofNat 34

def nlChar : Char := Char.ofNat 10

def crChar : Char := Char.ofNat 13

def tabChar : Char := Char.ofNat 9

def btick : Char := Char.ofNat 96

def lbrace : Char := Char.ofNat 123

def rbrace : Char := Char.ofNat 125

/-- Python `str.split("\n")`: split a character list at every newline.
Always returns at least one (possibly empty) segment, like the Python
method. -/
def splitNl : List Char → List (List Char)
  | [] => [[]]
  | c :: cs =>
    if c = nlChar then [] :: splitNl cs
    else
      match splitNl cs with
      | [] => [[c]]
      | l :: ls => (c :: l) :: ls

/-- The whitespace characters stripped by Python `str.strip()` (restricted to
the ASCII whitespace class; the service only ever strips fragments of model
text split on newlines, where this is the relevant set). -/
def pyIsSpace (c : Char) : Bool :=
  c = ' ' || c = tabChar || c = nlChar || c = crChar ||
  c = Char.ofNat 11 || c = Char.ofNat 12

/-- Python `str.strip()` on a character list: drop leading and trailing
whitespace. -/
def stripCh (cs : List Char) : List Char :=
  ((cs.dropWhile pyIsSpace).reverse.dropWhile pyIsSpace).reverse

/-- Python `pat in s` (substring containment) on character lists. -/
def isSubstrCh (pat : List Char) : List Char → Bool
  | [] => decide (pat = [])
  | c :: cs => pat.isPrefixOf (c :: cs) || isSubstrCh pat cs

/-- The two-character pattern `". "` tested by the line filter of
`generate_questions` (src/main.py line 150). -/
def dotSpace : List Char := ['.', ' ']

/-- The acceptance test of the list comprehension at src/main.py lines
149-150, applied to an already-stripped line `q`:
`q.strip() and q.strip()[0].isdigit() and ". " in q.strip()[:10]`.
(`Char.isDigit` restricts Python's `str.isdigit` to ASCII digits, the only
digits this service's prompts solicit.) -/
def acceptLine (cs : List Char) : Bool :=
  match cs with
  | [] => false
  | c :: _ => c.isDigit && isSubstrCh dotSpace (cs.take 10)

/-- The question extraction of src/main.py lines 149-150: split the raw
model response on newlines, strip each line, and keep exactly the stripped
lines passing `acceptLine`. -/
def extractQuestions (content : String) : List String :=
  (((splitNl content.data).map stripCh).filter acceptLine).map String.mk

/- ### Serialization of the question cache
src/main.py line 160 stores `str(questions)` (the Python `repr` of a list of
strings) in Redis, and line 127 reads it back with `eval`.  `pyReprList`
models `str` on a list of strings exactly (quote choice and the escapes for
backslash, the chosen quote, newline, carriage return and tab; other
characters are emitted verbatim, which matches Python for all printable
text).  `evalList` models `eval` restricted to the image of this printer:
every cache write in the service goes through `str` of a validated list, so
under the cache invariant this is the only behaviour `eval` exercises;
strings outside that image are modelled as failures. -/

/-- Quote chosen by Python `repr` for a string: double quote when the text
contains a single quote but no double quote, else single quote. -/
def chooseQuote (cs : List Char) : Char :=
  if cs.contains squote && !(cs.contains dquote) then dquote else squote

/-- The `repr` escape of one character under chosen quote `q`. -/
def escChar (q c : Char) : List Char :=
  if c = bslash then [bslash, bslash]
  else if c = q then [bslash, q]
  else if c = nlChar then [bslash, 'n']
  else if c = crChar then [bslash, 'r']
  else if c = tabChar then [bslash, 't']
  else [c]

/-- The `repr` escape of a whole string body. -/
def escBody (q : Char) : List Char → List Char
  | [] => []
  | c :: cs => escChar q c ++ escBody q cs

/-- Python `repr` of a string, as characters. -/
def reprStrCh (cs : List Char) : List Char :=
  let q := chooseQuote cs
  q :: (escBody q cs ++ [q])

/-- The comma-space separated items inside Python `str` of a list. -/
def reprItems : List (List Char) → List Char
  | [] => []
  | [s] => reprStrCh s
  | s :: rest => reprStrCh s ++ ',' :: ' ' :: reprItems rest

/-- Python `str` of a list of strings (what line 160 writes to the cache). -/
def pyReprList (l : List String) : String :=
  String.mk ('[' :: (reprItems (l.map String.data) ++ [']']))

/-- Inverse of `escChar`: decode one escaped character. -/
def unescChar (e : Char) : Option Char :=
  if e = bslash then some bslash
  else if e = squote then some squote
  else if e = dquote then some dquote
  else if e = 'n' then some nlChar
  else if e = 'r' then some crChar
  else if e = 't' then some tabChar
  else none

/-- Parse a string-literal body up to the closing quote `q`, undoing the
escapes of `escBody`. -/
def parseBody (q : Char) : List Char → Option (List Char × List Char)
  | [] => none
  | [c] => if c = q then some ([], []) else none
  | c :: e :: cs =>
    if c = q then some ([], e :: cs)
    else if c = bslash then
      (unescChar e).bind fun d =>
        (parseBody q cs).map fun p => (d :: p.1, p.2)
    else (parseBody q (e :: cs)).map fun p => (c :: p.1, p.2)

/-- Parse one quoted string literal. -/
def parseStr : List Char → Option (List Char × List Char)
  | [] => none
  | c :: cs => if c = squote || c = dquote then parseBody c cs else none

/-- Parse the comma-space separated items of a nonempty list literal, up to
and including the closing bracket. -/
def parseItems : Nat → List Char → Option (List (List Char) × List Char)
  | 0, _ => none
  | fuel + 1, l =>
    match parseStr l with
    | none => none
    | some (s, rest) =>
      match rest with
      | ']' :: r2 => some ([s], r2)
      | ',' :: ' ' :: r2 => (parseItems fuel r2).map (fun p => (s :: p.1, p.2))
      | _ => none

/-- Parse a complete list-of-strings literal (the whole input must be
consumed, as `eval` evaluates the whole cached text). -/
def parseListLit : List Char → Option (List (List Char))
  | [] => none
  | c :: rest =>
    if c = '[' then
      if rest = [']'] then some []
      else
        (parseItems rest.length rest).bind fun p =>
          if p.2 = [] then some p.1 else none
    else none

/-- Model of `eval` at src/main.py line 127 on cached question lists:
parse the Python list-of-strings literal produced by `str`.  `none` models
an exception (caught by the endpoint's handler). -/
def evalList (s : String) : Option (List String) :=
  (parseListLit s.data).map (fun items => items.map String.mk)

/- ### The generate-questions endpoint (src/main.py lines 116-167)
The work after the rate limiter, as a function of
 - `h`:     the process's string hash (Python's `hash`, an input because it
            is seed-randomized per process; the code only ever uses it
            through `f"questions:{hash(title + description)}"`),
 - `cache`: the Redis contents (key to stored string),
 - `jd`:    the request body, and
 - `modelResponse`: the text the completion API would return on this call.
The outcome records the HTTP result (`.error n` = `HTTPException(status_code=n)`),
the cache after the request, and whether the model was called and the cache
written. -/

/-- The `job_desc` request body: `{title: string, description: string}`. -/
structure JobDescription where
  title : String
  description : String
deriving DecidableEq

/-- src/main.py line 123: `cache_key = f"questions:{hash(job_desc.title + job_desc.description)}"`. -/
def cacheKey (h : String → Int) (jd : JobDescription) : String :=
  "questions:" ++ toString (h (jd.title ++ jd.description))

/-- Lines 124-125: `redis_client.get` followed by Python truthiness — an
absent key and an empty cached string both fail `if cached_questions:`. -/
def cacheHit (cache : String → Option String) (key : String) : Option String :=
  match cache key with
  | some c => if c = "" then none else some c
  | none => none

/-- Result and effects of one `generate_questions` request body run. -/
structure GenOutcome where
  result : Except Nat (List String)
  cacheOut : String → Option String
  modelCalled : Bool
  cacheWrote : Bool

/-- src/main.py lines 116-167 after the rate limiter: cache probe (lines
122-127), model call and line filter (lines 129-150), the count check (lines
152-155), cache write (line 160) and response; every raised exception is
turned into a 500 by the handlers at lines 155 and 164-167. -/
def generate_questions (h : String → Int) (cache : String → Option String)
    (jd : JobDescription) (modelResponse : String) : GenOutcome :=
  let key := cacheKey h jd
  match cacheHit cache key with
  | some cached =>
    match evalList cached with
    | some qs => ⟨.ok qs, cache, false, false⟩
    | none => ⟨.error 500, cache, false, false⟩
  | none =>
    let qs := extractQuestions modelResponse
    if qs.length = 5 then
      ⟨.ok qs, fun k => if k = key then some (pyReprList qs) else cache k,
        true, true⟩
    else ⟨.error 500, cache, true, false⟩

/-- The invariant the service maintains on its cache: every stored value
reads back (line 127's `eval`) as a list of exactly 5 strings.  Every write
(line 160) happens only after the count check at line 153. -/
def cacheInv (cache : String → Option String) : Prop :=
  ∀ k v, cache k = some v → ∃ qs : List String, evalList v = some qs ∧ qs.length = 5

/-- Follows the claim's (and spec section 8's) words: the pattern
`^<digit>\. .+` — one digit, then `". "` immediately, then at least one
character. -/
def matchesDigitDotSpace (s : String) : Bool :=
  match s.data with
  | c :: d :: sp :: rest => c.isDigit && d = '.' && sp = ' ' && !rest.isEmpty
  | _ => false

/- ### The analyze-responses endpoint (src/main.py lines 171-227)
The post-model-call processing: Markdown fence stripping (lines 206-208),
JSON parsing (line 211, Python `json.loads`), and normalization of the three
list-valued fields (lines 214-216).  Every exception in the inner try is
turned into a 500 by the handler at lines 219-222. -/

/-- JSON values as `json.loads` produces them.  Numbers are modelled as
exact rationals (Python parses integers to `int` and decimal literals to
`float`; no behaviour verified here depends on binary float rounding). -/
inductive JValue where
  | jnull
  | jbool (b : Bool)
  | jnum (q : Rat)
  | jstr (s : String)
  | jarr (xs : List JValue)
  | jobj (fields : List (String × JValue))

/-- src/main.py line 207: `feedback.split("\n", 1)[1]` — everything after
the first newline; `none` models the `IndexError` when there is none. -/
def afterFirstNl : List Char → Option (List Char)
  | [] => none
  | c :: cs => if c = nlChar then some cs else afterFirstNl cs

/-- src/main.py line 208: `feedback.rsplit("\n", 1)[0]` — everything before
the last newline, or the whole text when there is none (Python's `rsplit`
returns a one-element list then). -/
def beforeLastNl (l : List Char) : List Char :=
  match afterFirstNl l.reverse with
  | some r => r.reverse
  | none => l

/-- The Markdown fence marker tested at line 206 (`feedback.startswith("```")`). -/
def fenceMarker : List Char := [btick, btick, btick]

/-- Lines 205-208: when the response begins with a fence marker, drop the
first line and the last line; `none` models the uncaught-in-place
`IndexError` of `split("\n", 1)[1]` on fence text with no newline. -/
def stripFences (s : String) : Option String :=
  if fenceMarker.isPrefixOf s.data then
    (afterFirstNl s.data).map fun r => String.mk (beforeLastNl r)
  else some s

/-- JSON whitespace skipped between tokens. -/
def jws (c : Char) : Bool :=
  c = ' ' || c = tabChar || c = nlChar || c = crChar

def skipWs (l : List Char) : List Char := l.dropWhile jws

/-- JSON string escapes. -/
def junesc (e : Char) : Option Char :=
  if e = dquote then some dquote
  else if e = bslash then some bslash
  else if e = '/' then some '/'
  else if e = 'b' then some (Char.ofNat 8)
  else if e = 'f' then some (Char.ofNat 12)
  else if e = 'n' then some nlChar
  else if e = 'r' then some crChar
  else if e = 't' then some tabChar
  else none

def hexVal (c : Char) : Option Nat :=
  if c.isDigit then some (c.toNat - 48)
  else if 'a' ≤ c ∧ c ≤ 'f' then some (c.toNat - 87)
  else if 'A' ≤ c ∧ c ≤ 'F' then some (c.toNat - 55)
  else none

/-- Body of a JSON string literal after the opening quote, up to the
closing quote. -/
def parseJStrBody : Nat → List Char → Option (List Char × List Char)
  | 0, _ => none
  | _, [] => none
  | fuel + 1, c :: cs =>
    if c = dquote then some ([], cs)
    else if c = bslash then
      match cs with
      | [] => none
      | e :: cs2 =>
        if e = 'u' then
          match cs2 with
          | h1 :: h2 :: h3 :: h4 :: cs3 =>
            match hexVal h1, hexVal h2, hexVal h3, hexVal h4 with
            | some a, some b, some c2, some d =>
              (parseJStrBody fuel cs3).map fun p =>
                (Char.ofNat (((a * 16 + b) * 16 + c2) * 16 + d) :: p.1, p.2)
            | _, _, _, _ => none
          | _ => none
        else
          (junesc e).bind fun d =>
            (parseJStrBody fuel cs2).map fun p => (d :: p.1, p.2)
    else (parseJStrBody fuel cs).map fun p => (c :: p.1, p.2)

def digitsToNat (l : List Char) : Nat :=
  l.foldl (fun a c => a * 10 + (c.toNat - 48)) 0

def parseSign : List Char → Bool × List Char
  | c :: rest => if c = '-' then (true, rest) else (false, c :: rest)
  | [] => (false, [])

def parseDigits (l : List Char) : List Char × List Char :=
  (l.takeWhile Char.isDigit, l.dropWhile Char.isDigit)

def parseFrac : List Char → Option (List Char × List Char)
  | c :: rest =>
    if c = '.' then
      match parseDigits rest with
      | (ds, r) => if ds = [] then none else some (ds, r)
    else some ([], c :: rest)
  | [] => some ([], [])

def parseExp : List Char → Option (Bool × List Char × List Char)
  | c :: rest =>
    if c = 'e' ∨ c = 'E' then
      match rest with
      | s :: rest2 =>
        if s = '-' ∨ s = '+' then
          match parseDigits rest2 with
          | (ds, r) => if ds = [] then none else some (s = '-', ds, r)
        else
          match parseDigits (s :: rest2) with
          | (ds, r) => if ds = [] then none else some (false, ds, r)
      | [] => none
    else some (false, [], c :: rest)
  | [] => some (false, [], [])

/-- The exact rational value of a parsed JSON number. -/
def jnumVal (neg : Bool) (intDs fracDs : List Char) (expNeg : Bool)
    (expDs : List Char) : Rat :=
  let m : Int := (digitsToNat (intDs ++ fracDs) : Int)
  let m : Int := if neg then -m else m
  let e : Int :=
    (if expNeg then -(digitsToNat expDs : Int) else (digitsToNat expDs : Int)) -
      (fracDs.length : Int)
  if 0 ≤ e then mkRat (m * ((10 : Nat) ^ e.toNat : Nat)) 1
  else mkRat m ((10 : Nat) ^ (-e).toNat)

def parseJNum (l : List Char) : Option (Rat × List Char) :=
  match parseSign l with
  | (neg, l1) =>
    match parseDigits l1 with
    | (intDs, l2) =>
      if intDs = [] then none
      else if 1 < intDs.length ∧ intDs.head? = some '0' then none
      else
        (parseFrac l2).bind fun fr =>
          (parseExp fr.2).bind fun ex =>
            some (jnumVal neg intDs fr.1 ex.1 ex.2.1, ex.2.2)

/-- Python `dict` build-up during object parsing: a repeated key replaces
the value at its original position; a fresh key is appended. -/
def dictInsert (fields : List (String × JValue)) (k : String) (v : JValue) :
    List (String × JValue) :=
  if fields.any (fun p => p.1 = k) then
    fields.map (fun p => if p.1 = k then (k, v) else p)
  else fields ++ [(k, v)]

mutual

/-- One JSON value (the fuel only bounds nesting; `jsonLoads` supplies
more than the text's length). -/
def parseJValue : Nat → List Char → Option (JValue × List Char)
  | 0, _ => none
  | fuel + 1, l =>
    match l with
    | [] => none
    | c :: cs =>
      if c = dquote then
        (parseJStrBody (cs.length + 1) cs).map fun p =>
          (.jstr (String.mk p.1), p.2)
      else if c = '[' then
        match skipWs cs with
        | ']' :: r2 => some (.jarr [], r2)
        | r => (parseJItems fuel r).map fun p => (.jarr p.1, p.2)
      else if c = lbrace then
        match skipWs cs with
        | [] => none
        | d :: r2 =>
          if d = rbrace then some (.jobj [], r2)
          else (parseJMembers fuel (d :: r2) []).map fun p => (.jobj p.1, p.2)
      else if ['t', 'r', 'u', 'e'].isPrefixOf l then
        some (.jbool true, l.drop 4)
      else if ['f', 'a', 'l', 's', 'e'].isPrefixOf l then
        some (.jbool false, l.drop 5)
      else if ['n', 'u', 'l', 'l'].isPrefixOf l then
        some (.jnull, l.drop 4)
      else (parseJNum l).map fun p => (.jnum p.1, p.2)

/-- Comma-separated array items up to and including `]`. -/
def parseJItems : Nat → List Char → Option (List JValue × List Char)
  | 0, _ => none
  | fuel + 1, l =>
    (parseJValue fuel (skipWs l)).bind fun vr =>
      match skipWs vr.2 with
      | ',' :: r2 => (parseJItems fuel r2).map fun p => (vr.1 :: p.1, p.2)
      | ']' :: r2 => some ([vr.1], r2)
      | _ => none

/-- Comma-separated object members up to and including the closing brace,
accumulated with `dictInsert`. -/
def parseJMembers : Nat → List Char → List (String × JValue) →
    Option (List (String × JValue) × List Char)
  | 0, _, _ => none
  | fuel + 1, l, acc =>
    match skipWs l with
    | [] => none
    | c :: cs =>
      if c = dquote then
        (parseJStrBody (cs.length + 1) cs).bind fun kr =>
          match skipWs kr.2 with
          | ':' :: r2 =>
            (parseJValue fuel (skipWs r2)).bind fun vr =>
              match skipWs vr.2 with
              | ',' :: r3 => parseJMembers fuel r3 (dictInsert acc (String.mk kr.1) vr.1)
              | d :: r3 =>
                if d = rbrace then some (dictInsert acc (String.mk kr.1) vr.1, r3)
                else none
              | [] => none
          | _ => none
      else none

end

/-- Model of `json.loads` at src/main.py line 211: parse one JSON value,
requiring only trailing whitespace after it; `none` models
`json.JSONDecodeError`. -/
def jsonLoads (s : String) : Option JValue :=
  match parseJValue (s.data.length + 1) (skipWs s.data) with
  | some (v, rest) => if skipWs rest = [] then some v else none
  | none => none

/-- The three list-valued keys normalized at src/main.py line 214. -/
def listFieldKeys : List String := ["strengths", "improvements", "recommendations"]

/-- Python `feedback_json[key]` on the parsed dict (keys are unique by
construction through `dictInsert`): the value at the first matching key. -/
def jlookup : List (String × JValue) → String → Option JValue
  | [], _ => none
  | p :: rest, k => if p.1 == k then some p.2 else jlookup rest k

/-- Python `feedback_json[key] = v`: replace the value at `key` in place. -/
def jset : List (String × JValue) → String → JValue → List (String × JValue)
  | [], _, _ => []
  | p :: rest, k, v => (if p.1 == k then (k, v) else p) :: jset rest k v

/-- The normalization a single parsed value undergoes: a bare string is
wrapped into a one-element array, everything else is untouched. -/
def normVal : JValue → JValue
  | .jstr s => .jarr [.jstr s]
  | v => v

/-- src/main.py lines 214-216 for one key of a parsed dict: a missing key
raises (`KeyError`, `none` here) and a string value is wrapped into a
one-element list. -/
def normalizeListKeyFields (fields : List (String × JValue)) (k : String) :
    Option JValue :=
  match jlookup fields k with
  | none => none
  | some (.jstr s) => some (.jobj (jset fields k (.jarr [.jstr s])))
  | some _ => some (.jobj fields)

/-- src/main.py lines 214-216 for one key: `feedback_json[key]` raises on a
non-dict (`TypeError`) or a missing key (`KeyError`) — both `none` here —
and a string value is wrapped into a one-element list. -/
def normalizeListKey (j : JValue) (k : String) : Option JValue :=
  match j with
  | .jobj fields => normalizeListKeyFields fields k
  | _ => none

/-- The loop at lines 214-216 over the three list-valued keys. -/
def normalizeFeedback (j : JValue) : Option JValue :=
  (normalizeListKey j "strengths").bind fun j1 =>
    (normalizeListKey j1 "improvements").bind fun j2 =>
      normalizeListKey j2 "recommendations"

/-- src/main.py lines 204-222: fence stripping, `json.loads`, and the
normalization loop; every exception becomes a 500.  (The successful
response body serializes the result with `json.dumps`; the serialization is
not needed by any verified property, so the model returns the normalized
value itself.) -/
def processFeedback (feedback : String) : Except Nat JValue :=
  match stripFences feedback with
  | none => .error 500
  | some f =>
    match jsonLoads f with
    | none => .error 500
    | some j =>
      match normalizeFeedback j with
      | none => .error 500
      | some j2 => .ok j2

/-- Follows the spec's words (section 3, FeedbackReport): the three scores
are integers in 0-10 and the three list fields are sequences of strings.
Stated over the model to be compared with what the code actually
enforces. -/
def isSpecFeedbackReport (j : JValue) : Bool :=
  match j with
  | .jobj fields =>
    (["technical_score", "communication_score", "overall_score"].all fun k =>
      match jlookup fields k with
      | some (.jnum q) => q.den == 1 && decide (0 ≤ q.num) && decide (q.num ≤ 10)
      | _ => false) &&
    (listFieldKeys.all fun k =>
      match jlookup fields k with
      | some (.jarr xs) =>
        xs.all fun x =>
          match x with
          | .jstr _ => true
          | _ => false
      | _ => false)
  | _ => false

/- ### The analysis prompt transcript (claim C9)
src/main.py line 179 renders the caller's answers as
`"\n".join(f"Q: {q}\nA: {a}\n" for ...)` inside the user prompt
(lines 177-190). -/

/-- One question/answer pair as rendered at line 179:
`f"Q: \x7bq\x7d\nA: \x7ba\x7d\n"`. -/
def renderItem (p : String × String) : List Char :=
  'Q' :: ':' :: ' ' ::
    (p.1.data ++ nlChar :: 'A' :: ':' :: ' ' :: (p.2.data ++ [nlChar]))

/-- `chr(10).join(...)` over the rendered pairs, in caller order. -/
def renderItems : List (String × String) → List Char
  | [] => []
  | [p] => renderItem p
  | p :: rest => renderItem p ++ nlChar :: renderItems rest

/-- The transcript block of the user prompt. -/
def renderTranscript (answers : List (String × String)) : String :=
  String.mk (renderItems answers)

/-- The system persona of both endpoints (src/main.py lines 105-108). -/
def SYSTEM_PROMPT : String :=
  "You are an experienced technical interviewer conducting interviews for various tech positions. \nYour goal is to assess candidates' technical knowledge, problem-solving abilities, and communication skills.\nAsk relevant technical questions based on the job title and description provided. Focus on both technical depth and soft skills.\nProvide constructive feedback that helps candidates improve."

/-- The fixed text before the transcript in the analysis user prompt. -/
def analysisPromptPrefix : String := "Analyze these interview responses:\n\n"

/-- The fixed text after the transcript in the analysis user prompt
(src/main.py lines 181-190). -/
def analysisPromptSuffix : String :=
  "\n\nProvide comprehensive feedback including:\n1. Technical Depth (Score out of 10)\n2. Communication Clarity (Score out of 10)\n3. Overall Performance (Score out of 10)\n4. Strengths\n5. Areas for Improvement\n6. Specific Recommendations\n\nFormat the response as JSON with these keys:\ntechnical_score, communication_score, overall_score, strengths, improvements, recommendations"

/-- The user-role prompt content sent to the completion client. -/
def analysisUserPrompt (answers : List (String × String)) : String :=
  analysisPromptPrefix ++ renderTranscript answers ++ analysisPromptSuffix

/-- The role-tagged message list of the analysis model call
(src/main.py lines 175-191). -/
def analysisMessages (answers : List (String × String)) :
    List (String × String) :=
  [("system", SYSTEM_PROMPT), ("user", analysisUserPrompt answers)]

/-- Inverse reading of one `Q: ` line. -/
def parseQLine (l : List Char) : Option String :=
  match l with
  | 'Q' :: ':' :: ' ' :: rest => some (String.mk rest)
  | _ => none

/-- Inverse reading of one `A: ` line. -/
def parseALine (l : List Char) : Option String :=
  match l with
  | 'A' :: ':' :: ' ' :: rest => some (String.mk rest)
  | _ => none

/-- Inverse reading of the rendered transcript's lines: groups of a `Q: `
line, an `A: ` line and a blank line. -/
def parsePairLines : List (List Char) → Option (List (String × String))
  | ql :: al :: [] :: rest =>
    (parseQLine ql).bind fun q =>
      (parseALine al).bind fun a =>
        if rest = [] then some [(q, a)]
        else (parsePairLines rest).map fun ps => (q, a) :: ps
  | _ => none

/-- Inverse reading of the whole transcript block: the pairs, in the order
they appear in the prompt text. -/
def extractPairs (s : String) : Option (List (String × String)) :=
  if s.data = [] then some [] else parsePairLines (splitNl s.data)

/- ### Rate limiting (claim C8) -/

/-- Modelled from the spec: the `@limiter.limit("5/minute")` decorators at
src/main.py lines 115 and 170 delegate to the slowapi library, whose code
is not part of this repository.  Spec sections 5 and 7: a fixed-window
counter of at most 5 invocations per minute per client address; requests
over the limit are rejected immediately with a 429 before any downstream
work.  The model keeps the within-window request count of one client and
runs the endpoint body only below the limit. -/
def RATE_LIMIT : Nat := 5

/-- One client's server-side state for the generate endpoint: the
within-window request count and the cache. -/
structure GenServer where
  rl : Nat
  cache : String → Option String

/-- Result and effects of one rate-limited generate request. -/
structure GenStep where
  result : Except Nat (List String)
  server : GenServer
  cacheRead : Bool
  modelCalled : Bool
  cacheWrote : Bool

/-- Modelled from the spec (rate limiter) wrapped around
`generate_questions` (the code under src/): a request at or over the limit
is rejected with a 429 and performs no cache read, no model call and no
cache write; below the limit the endpoint body runs and the count
increments. -/
def serveGenerate (h : String → Int) (s : GenServer) (jd : JobDescription)
    (resp : String) : GenStep :=
  if RATE_LIMIT ≤ s.rl then ⟨.error 429, s, false, false, false⟩
  else
    let o := generate_questions h s.cache jd resp
    ⟨o.result, ⟨s.rl + 1, o.cacheOut⟩, true, o.modelCalled, o.cacheWrote⟩

/-- Modelled from the spec (rate limiter) wrapped around the
analyze-responses body: result, new count, and whether the model was
called. -/
def serveAnalyze (rl : Nat) (feedback : String) :
    Except Nat JValue × Nat × Bool :=
  if RATE_LIMIT ≤ rl then (.error 429, rl, false)
  else (processFeedback feedback, rl + 1, true)

example : extractQuestions "1. a\n 2. bb\nx\n\n3. c\n4. d\n5. e" =
    ["1. a", "2. bb", "3. c", "4. d", "5. e"] := by decide

example : extractQuestions "12. two digit\nno. marker late" = ["12. two digit"] := by decide

example : evalList (pyReprList ["1. a", "it's \"b\"", "c\\d"]) =
    some ["1. a", "it's \"b\"", "c\\d"] := by decide

/- ### The cache serialization round-trips -/

theorem parseBody_escBody (q : Char) (hq : q = squote ∨ q = dquote) :
    ∀ (cs rest : List Char),
      parseBody q (escBody q cs ++ q :: rest) = some (cs, rest) := by
  have hqb : q ≠ bslash := by rcases hq with rfl | rfl <;> decide
  have hbq : bslash ≠ q := fun h => hqb h.symm
  have hunq : unescChar q = some q := by rcases hq with rfl | rfl <;> decide
  have hnlq : nlChar ≠ q := by rcases hq with rfl | rfl <;> decide
  have hcrq : crChar ≠ q := by rcases hq with rfl | rfl <;> decide
  have htbq : tabChar ≠ q := by rcases hq with rfl | rfl <;> decide
  intro cs
  induction cs with
  | nil =>
    intro rest
    cases rest <;> simp [escBody, parseBody]
  | cons c cs ih =>
    intro rest
    by_cases h1 : c = bslash
    · subst h1
      simp +decide [escBody, escChar, parseBody, unescChar, hbq, ih]
    · by_cases h2 : c = q
      · subst h2
        simp [escBody, escChar, parseBody, hqb, hbq, hunq, ih]
      · by_cases h4 : c = nlChar
        · subst h4
          simp +decide [escBody, escChar, parseBody, unescChar, hbq, hnlq, ih]
        · by_cases h5 : c = crChar
          · subst h5
            simp +decide [escBody, escChar, parseBody, unescChar, hbq, hcrq, ih]
          · by_cases h6 : c = tabChar
            · subst h6
              simp +decide [escBody, escChar, parseBody, unescChar, hbq, htbq, ih]
            · have hesc : escChar q c = [c] := by
                simp [escChar, h1, h2, h4, h5, h6]
              cases hbody : escBody q cs ++ q :: rest with
              | nil => simp at hbody
              | cons u us =>
                rw [escBody, hesc]
                simp only [List.cons_append, List.nil_append]
                rw [hbody, parseBody, if_neg h2, if_neg h1, ← hbody, ih]
                rfl

theorem parseStr_reprStrCh (cs rest : List Char) :
    parseStr (reprStrCh cs ++ rest) = some (cs, rest) := by
  have hq : chooseQuote cs = squote ∨ chooseQuote cs = dquote := by
    unfold chooseQuote; split
    · exact Or.inr rfl
    · exact Or.inl rfl
  have hbody := parseBody_escBody (chooseQuote cs) hq cs rest
  have hrw : reprStrCh cs ++ rest =
      chooseQuote cs :: (escBody (chooseQuote cs) cs ++ chooseQuote cs :: rest) := by
    simp [reprStrCh]
  rw [hrw]
  rcases hq with hq | hq <;> rw [hq] at hbody ⊢ <;> simp +decide [parseStr, hbody]

theorem reprStrCh_length (cs : List Char) : 2 ≤ (reprStrCh cs).length := by
  simp [reprStrCh]

theorem reprItems_length :
    ∀ (its : List (List Char)), its.length ≤ (reprItems its).length := by
  intro its
  induction its with
  | nil => simp [reprItems]
  | cons s rest ih =>
    cases rest with
    | nil =>
      have h2 := reprStrCh_length s
      simp only [reprItems, List.length_cons, List.length_nil]
      omega
    | cons t ts =>
      have h2 := reprStrCh_length s
      simp only [reprItems, List.length_append, List.length_cons] at *
      omega

theorem parseItems_reprItems :
    ∀ (its : List (List Char)) (fuel : Nat) (rest : List Char),
      its ≠ [] → its.length ≤ fuel →
      parseItems fuel (reprItems its ++ ']' :: rest) = some (its, rest) := by
  intro its
  induction its with
  | nil => intro fuel rest h; exact absurd rfl h
  | cons s t ih =>
    intro fuel rest _ hfuel
    cases fuel with
    | zero => simp at hfuel
    | succ f =>
      cases t with
      | nil => simp [reprItems, parseItems, parseStr_reprStrCh]
      | cons u us =>
        have ht : u :: us ≠ [] := by simp
        have hf : (u :: us).length ≤ f := by
          simp only [List.length_cons] at hfuel ⊢; omega
        simp [reprItems, parseItems, parseStr_reprStrCh, ih f rest ht hf]

theorem reprItems_ne_nil (s : List Char) (t : List (List Char)) :
    reprItems (s :: t) ≠ [] := by
  cases t <;> simp [reprItems, reprStrCh]

theorem mk_data (s : String) : String.mk s.data = s := by
  cases s; rfl

theorem map_mk_data (l : List String) : l.map (fun s => String.mk s.data) = l := by
  induction l with
  | nil => rfl
  | cons a as ih => simp only [List.map_cons, mk_data, ih]

theorem map_mk_comp_data (l : List String) : l.map (String.mk ∘ String.data) = l := by
  induction l with
  | nil => rfl
  | cons a as ih => simp only [List.map_cons, Function.comp_apply, mk_data, ih]

/-- The cache serialization round-trips: reading back (with the modelled
`eval`) what `str` wrote returns exactly the list that was written. -/
theorem evalList_pyReprList (l : List String) :
    evalList (pyReprList l) = some l := by
  cases l with
  | nil => decide
  | cons s t =>
    have hdata : (pyReprList (s :: t)).data =
        '[' :: (reprItems ((s :: t).map String.data) ++ [']']) := rfl
    have hne : reprItems ((s :: t).map String.data) ≠ [] := reprItems_ne_nil _ _
    have hlen : ((s :: t).map String.data).length ≤
        (reprItems ((s :: t).map String.data) ++ [']']).length := by
      have := reprItems_length ((s :: t).map String.data)
      simp only [List.length_append, List.length_cons, List.length_nil]
      omega
    have hstep := parseItems_reprItems ((s :: t).map String.data)
      ((reprItems ((s :: t).map String.data) ++ [']']).length) []
      (by simp) hlen
    have hnsingle : reprItems ((s :: t).map String.data) ++ [']'] ≠ [']'] := by
      intro h
      exact hne (by simpa using congrArg (List.dropLast) h)
    simp only [List.append_nil] at hstep
    unfold evalList
    rw [hdata, parseListLit, if_pos rfl, if_neg hnsingle, hstep]
    simp [List.map_map, mk_data, map_mk_data, map_mk_comp_data]

theorem pyReprList_ne_empty (l : List String) : pyReprList l ≠ "" := by
  intro h
  have : (pyReprList l).data = [] := by rw [h]
  simp [pyReprList] at this

/-- On a miss-and-success run the new cache binds the request's key to the
serialized questions and keeps every other key. -/
theorem generate_questions_cases (h : String → Int)
    (cache : String → Option String) (jd : JobDescription) (resp : String) :
    (cacheHit cache (cacheKey h jd) = none →
      ((extractQuestions resp).length = 5 ∧
        generate_questions h cache jd resp =
          ⟨.ok (extractQuestions resp),
            fun k => if k = cacheKey h jd
              then some (pyReprList (extractQuestions resp))
              else cache k, true, true⟩) ∨
      ((extractQuestions resp).length ≠ 5 ∧
        generate_questions h cache jd resp = ⟨.error 500, cache, true, false⟩)) ∧
    (∀ cached, cacheHit cache (cacheKey h jd) = some cached →
      generate_questions h cache jd resp =
        match evalList cached with
        | some qs => ⟨.ok qs, cache, false, false⟩
        | none => ⟨.error 500, cache, false, false⟩) := by
  constructor
  · intro hmiss
    by_cases hlen : (extractQuestions resp).length = 5
    · exact Or.inl ⟨hlen, by simp [generate_questions, hmiss, hlen]⟩
    · exact Or.inr ⟨hlen, by simp [generate_questions, hmiss, hlen]⟩
  · intro cached hhit
    simp [generate_questions, hhit]

theorem cacheHit_some (cache : String → Option String) (k c : String)
    (h : cacheHit cache k = some c) : cache k = some c := by
  unfold cacheHit at h
  cases hck : cache k with
  | none => rw [hck] at h; exact absurd h (by simp)
  | some v =>
    rw [hck] at h
    by_cases hv : v = ""
    · simp [hv] at h
    · simp [hv] at h
      rw [h]

/-- After a hit on the cache the service returns the deserialized cached
value; after a miss that passes the count check, the request's key now
holds the serialized questions, so any later request with the same cache
key is served from the cache with no model call and no write.  Shared by
the cache-behaviour theorems below. -/
theorem gen_second_request (h : String → Int) (cache : String → Option String)
    (jd jd2 : JobDescription) (resp resp2 : String) (qs : List String)
    (hkey : cacheKey h jd2 = cacheKey h jd)
    (h1 : (generate_questions h cache jd resp).result = .ok qs) :
    (generate_questions h (generate_questions h cache jd resp).cacheOut
        jd2 resp2).result = .ok qs ∧
    (generate_questions h (generate_questions h cache jd resp).cacheOut
        jd2 resp2).modelCalled = false ∧
    (generate_questions h (generate_questions h cache jd resp).cacheOut
        jd2 resp2).cacheWrote = false := by
  cases hh : cacheHit cache (cacheKey h jd) with
  | some cached =>
    cases he : evalList cached with
    | some qs0 =>
      have ho1 : generate_questions h cache jd resp =
          ⟨.ok qs0, cache, false, false⟩ := by
        simp [generate_questions, hh, he]
      rw [ho1] at h1 ⊢
      obtain rfl : qs0 = qs := by simpa using h1
      simp [generate_questions, hkey, hh, he]
    | none =>
      have ho1 : (generate_questions h cache jd resp).result = .error 500 := by
        simp [generate_questions, hh, he]
      rw [ho1] at h1
      exact absurd h1 (by simp)
  | none =>
    by_cases hlen : (extractQuestions resp).length = 5
    · have ho1 : generate_questions h cache jd resp =
          ⟨.ok (extractQuestions resp),
            fun k => if k = cacheKey h jd
              then some (pyReprList (extractQuestions resp))
              else cache k, true, true⟩ := by
        simp [generate_questions, hh, hlen]
      rw [ho1] at h1 ⊢
      obtain rfl : extractQuestions resp = qs := by simpa using h1
      have hhit2 : cacheHit
          (fun k => if k = cacheKey h jd
            then some (pyReprList (extractQuestions resp)) else cache k)
          (cacheKey h jd2) = some (pyReprList (extractQuestions resp)) := by
        simp [cacheHit, hkey, pyReprList_ne_empty]
      simp [generate_questions, hhit2, evalList_pyReprList]
    · have ho1 : (generate_questions h cache jd resp).result = .error 500 := by
        simp [generate_questions, hh, hlen]
      rw [ho1] at h1
      exact absurd h1 (by simp)

/-- Claim C1: for every valid `JobDescription`, `generate_questions` either
returns exactly 5 questions or fails with a 500; on a count mismatch it
errors without retrying, padding, truncating or writing the cache; and the
cache invariant (stored values deserialize to 5-element lists) is
preserved. -/
theorem C1_generate_questions_five_or_500 (h : String → Int)
    (cache : String → Option String) (jd : JobDescription) (resp : String)
    (hinv : cacheInv cache) :
    (∀ qs, (generate_questions h cache jd resp).result = .ok qs →
      qs.length = 5) ∧
    (∀ n, (generate_questions h cache jd resp).result = .error n → n = 500) ∧
    (cacheHit cache (cacheKey h jd) = none →
      (extractQuestions resp).length ≠ 5 →
      (generate_questions h cache jd resp).result = .error 500 ∧
      (generate_questions h cache jd resp).cacheWrote = false ∧
      (generate_questions h cache jd resp).cacheOut = cache) ∧
    cacheInv (generate_questions h cache jd resp).cacheOut := by
  cases hh : cacheHit cache (cacheKey h jd) with
  | some cached =>
    obtain ⟨qs5, hev, hlen5⟩ := hinv _ _ (cacheHit_some _ _ _ hh)
    have ho : generate_questions h cache jd resp =
        ⟨.ok qs5, cache, false, false⟩ := by
      simp [generate_questions, hh, hev]
    rw [ho]
    refine ⟨?_, ?_, ?_, hinv⟩
    · intro qs hqs
      obtain rfl : qs5 = qs := by simpa using hqs
      exact hlen5
    · intro n hn; exact absurd hn (by simp)
    · intro hmiss
      exact absurd hmiss (by simp)
  | none =>
    by_cases hlen : (extractQuestions resp).length = 5
    · have ho : generate_questions h cache jd resp =
          ⟨.ok (extractQuestions resp),
            fun k => if k = cacheKey h jd
              then some (pyReprList (extractQuestions resp))
              else cache k, true, true⟩ := by
        simp [generate_questions, hh, hlen]
      rw [ho]
      refine ⟨?_, ?_, ?_, ?_⟩
      · intro qs hqs
        obtain rfl : extractQuestions resp = qs := by simpa using hqs
        exact hlen
      · intro n hn; exact absurd hn (by simp)
      · intro _ hne; exact absurd hlen hne
      · intro k v hv
        have hv2 : (if k = cacheKey h jd
            then some (pyReprList (extractQuestions resp))
            else cache k) = some v := hv
        by_cases hk : k = cacheKey h jd
        · rw [if_pos hk] at hv2
          obtain rfl : pyReprList (extractQuestions resp) = v := by simpa using hv2
          exact ⟨extractQuestions resp, evalList_pyReprList _, hlen⟩
        · rw [if_neg hk] at hv2
          exact hinv _ _ hv2
    · have ho : generate_questions h cache jd resp =
          ⟨.error 500, cache, true, false⟩ := by
        simp [generate_questions, hh, hlen]
      rw [ho]
      refine ⟨?_, ?_, fun _ _ => ⟨rfl, rfl, rfl⟩, hinv⟩
      · intro qs hqs; exact absurd hqs (by simp)
      · intro n hn
        simpa using hn.symm

/-- Witness for C1 at a concrete request: the empty cache satisfies the
invariant, and a model response with exactly five numbered lines yields a
5-question success. -/
theorem C1_witness :
    (∀ qs, (generate_questions (fun _ => 0) (fun _ => none) ⟨"t", "d"⟩
        "1. a\n2. b\n3. c\n4. d\n5. e").result = .ok qs → qs.length = 5) ∧
    (∀ n, (generate_questions (fun _ => 0) (fun _ => none) ⟨"t", "d"⟩
        "1. a\n2. b\n3. c\n4. d\n5. e").result = .error n → n = 500) :=
  ⟨(C1_generate_questions_five_or_500 (fun _ => 0) (fun _ => none) ⟨"t", "d"⟩
      "1. a\n2. b\n3. c\n4. d\n5. e" (fun _ _ hv => Option.noConfusion hv)).1,
   (C1_generate_questions_five_or_500 (fun _ => 0) (fun _ => none) ⟨"t", "d"⟩
      "1. a\n2. b\n3. c\n4. d\n5. e" (fun _ _ hv => Option.noConfusion hv)).2.1⟩

/-- Claim C3: after a successful `generate_questions` request, an identical
request against the resulting cache state is a cache hit: it returns the
same question list, calls no model, writes no cache, and the serialized
value round-trips (deserializing what was written returns the written
list). -/
theorem C3_cache_hit_idempotent (h : String → Int)
    (cache : String → Option String) (jd : JobDescription)
    (resp resp2 : String) (qs : List String)
    (h1 : (generate_questions h cache jd resp).result = .ok qs) :
    (generate_questions h (generate_questions h cache jd resp).cacheOut
        jd resp2).result = .ok qs ∧
    (generate_questions h (generate_questions h cache jd resp).cacheOut
        jd resp2).modelCalled = false ∧
    (generate_questions h (generate_questions h cache jd resp).cacheOut
        jd resp2).cacheWrote = false ∧
    evalList (pyReprList qs) = some qs := by
  obtain ⟨h2, h3, h4⟩ := gen_second_request h cache jd jd resp resp2 qs rfl h1
  exact ⟨h2, h3, h4, evalList_pyReprList qs⟩

/-- Witness for C3: a concrete first request that succeeds, followed by an
identical second request served from the cache. -/
theorem C3_witness :
    (generate_questions (fun _ => 0)
      ((generate_questions (fun _ => 0) (fun _ => none) ⟨"t", "d"⟩
        "1. a\n2. b\n3. c\n4. d\n5. e").cacheOut) ⟨"t", "d"⟩
        "ignored").result = .ok ["1. a", "2. b", "3. c", "4. d", "5. e"] ∧
    (generate_questions (fun _ => 0)
      ((generate_questions (fun _ => 0) (fun _ => none) ⟨"t", "d"⟩
        "1. a\n2. b\n3. c\n4. d\n5. e").cacheOut) ⟨"t", "d"⟩
        "ignored").modelCalled = false :=
  ⟨(C3_cache_hit_idempotent (fun _ => 0) (fun _ => none) ⟨"t", "d"⟩
      "1. a\n2. b\n3. c\n4. d\n5. e" "ignored"
      ["1. a", "2. b", "3. c", "4. d", "5. e"] rfl).1,
   (C3_cache_hit_idempotent (fun _ => 0) (fun _ => none) ⟨"t", "d"⟩
      "1. a\n2. b\n3. c\n4. d\n5. e" "ignored"
      ["1. a", "2. b", "3. c", "4. d", "5. e"] rfl).2.1⟩

/-- Claim C10: the cache key is a function of the concatenation
`title ++ description` alone, so two job descriptions with equal
concatenations share a key, and after a success for the first, a request
for the second is served the first request's cached question set with no
model call. -/
theorem C10_cacheKey_concatenation (h : String → Int)
    (jd1 jd2 : JobDescription)
    (heq : jd1.title ++ jd1.description = jd2.title ++ jd2.description) :
    cacheKey h jd1 = cacheKey h jd2 ∧
    ∀ (cache : String → Option String) (resp resp2 : String)
      (qs : List String),
      (generate_questions h cache jd1 resp).result = .ok qs →
      (generate_questions h (generate_questions h cache jd1 resp).cacheOut
          jd2 resp2).result = .ok qs ∧
      (generate_questions h (generate_questions h cache jd1 resp).cacheOut
          jd2 resp2).modelCalled = false := by
  have hk : cacheKey h jd1 = cacheKey h jd2 := by
    unfold cacheKey; rw [heq]
  refine ⟨hk, fun cache resp resp2 qs h1 => ?_⟩
  obtain ⟨h2, h3, _⟩ := gen_second_request h cache jd1 jd2 resp resp2 qs hk.symm h1
  exact ⟨h2, h3⟩

/-- Witness for C10: title "ab" with description "c" and title "a" with
description "bc" concatenate equally, so they share a cache key and the
second request is served from the first request's cache. -/
theorem C10_witness :
    cacheKey (fun s => (s.length : Int)) ⟨"ab", "c"⟩ =
      cacheKey (fun s => (s.length : Int)) ⟨"a", "bc"⟩ ∧
    (generate_questions (fun s => (s.length : Int))
      ((generate_questions (fun s => (s.length : Int)) (fun _ => none)
        ⟨"ab", "c"⟩ "1. a\n2. b\n3. c\n4. d\n5. e").cacheOut) ⟨"a", "bc"⟩
        "other").result = .ok ["1. a", "2. b", "3. c", "4. d", "5. e"] :=
  ⟨(C10_cacheKey_concatenation (fun s => (s.length : Int)) ⟨"ab", "c"⟩
      ⟨"a", "bc"⟩ rfl).1,
   ((C10_cacheKey_concatenation (fun s => (s.length : Int)) ⟨"ab", "c"⟩
      ⟨"a", "bc"⟩ rfl).2 (fun _ => none) "1. a\n2. b\n3. c\n4. d\n5. e"
      "other" ["1. a", "2. b", "3. c", "4. d", "5. e"] rfl).1⟩

/- ### The shape of accepted question lines (claim C2) -/

theorem isSubstrCh_iff (pat : List Char) :
    ∀ (l : List Char), isSubstrCh pat l = true ↔ ∃ a b, l = a ++ pat ++ b := by
  intro l
  induction l with
  | nil =>
    simp only [isSubstrCh, decide_eq_true_eq]
    constructor
    · rintro rfl; exact ⟨[], [], rfl⟩
    · rintro ⟨a, b, hab⟩
      have h2 := hab.symm
      rw [List.append_assoc, List.append_eq_nil] at h2
      rw [(List.append_eq_nil.mp h2.2).1]
    | cons c cs ih =>
    simp only [isSubstrCh, Bool.or_eq_true]
    constructor
    · rintro (hpre | hsub)
      · obtain ⟨t, ht⟩ := List.isPrefixOf_iff_prefix.mp hpre
        exact ⟨[], t, by simp [← ht]⟩
      · obtain ⟨a, b, hab⟩ := ih.mp hsub
        exact ⟨c :: a, b, by simp [hab]⟩
    · rintro ⟨a, b, hab⟩
      cases a with
      | nil =>
        exact Or.inl (List.isPrefixOf_iff_prefix.mpr ⟨b, by simpa using hab.symm⟩)
      | cons a0 as =>
        simp only [List.cons_append, List.cons.injEq] at hab
        exact Or.inr (ih.mpr ⟨as, b, hab.2⟩)

/-- Claim C2 (amended): the filter keeps exactly the stripped lines that are
nonempty, start with a digit, and contain `". "` somewhere within their
first 10 characters — the digit need not be immediately followed by
`". "`. -/
theorem C2_filter_characterization (content : String) (q : String) :
    q ∈ extractQuestions content ↔
      ∃ line, line ∈ splitNl content.data ∧
        q.data = stripCh line ∧
        (∃ c rest, q.data = c :: rest ∧ c.isDigit = true) ∧
        (∃ a b, q.data.take 10 = a ++ '.' :: ' ' :: b) := by
  constructor
  · intro hq
    simp only [extractQuestions, List.mem_map, List.mem_filter] at hq
    obtain ⟨cs, ⟨hcs, hacc⟩, hmk⟩ := hq
    obtain ⟨line, hline, hstrip⟩ := hcs
    subst hmk
    cases cs with
    | nil => simp [acceptLine] at hacc
    | cons c rest =>
      simp only [acceptLine, Bool.and_eq_true] at hacc
      obtain ⟨hdig, hsub⟩ := hacc
      obtain ⟨a, b, hab⟩ := (isSubstrCh_iff dotSpace _).mp hsub
      refine ⟨line, hline, by simpa using hstrip.symm,
        ⟨c, rest, rfl, hdig⟩, ⟨a, b, ?_⟩⟩
      simpa [dotSpace] using hab
  · rintro ⟨line, hline, hdata, ⟨c, rest, hcr, hdig⟩, ⟨a, b, hab⟩⟩
    simp only [extractQuestions, List.mem_map, List.mem_filter]
    refine ⟨q.data, ⟨⟨line, hline, hdata.symm⟩, ?_⟩, mk_data q⟩
    rw [hcr]
    simp only [acceptLine, Bool.and_eq_true]
    refine ⟨hdig, (isSubstrCh_iff dotSpace _).mpr ⟨a, b, ?_⟩⟩
    rw [← hcr]
    simpa [dotSpace] using hab

/-- Witness for C2 at a concrete response: the line `" 3. b "` is stripped
to `"3. b"` and kept; the characterization exhibits its digit and `". "`
occurrence. -/
theorem C2_witness :
    "3. b" ∈ extractQuestions "x\n 3. b \ny" ∧
    ∃ line, line ∈ splitNl ("x\n 3. b \ny").data ∧
      ("3. b").data = stripCh line ∧
      (∃ c rest, ("3. b").data = c :: rest ∧ c.isDigit = true) ∧
      (∃ a b, ("3. b").data.take 10 = a ++ '.' :: ' ' :: b) :=
  ⟨by decide,
   (C2_filter_characterization "x\n 3. b \ny" "3. b").mp (by decide)⟩

/-- Counterexample to C2 as stated: a model response whose lines use
two-digit ordinals.  All five lines are kept by the filter (first character
is a digit and `". "` occurs within the first 10 characters), the request
succeeds, and the returned string `"10. Tell me"` does not match
`^<digit>\. .+`. -/
theorem C2_counterexample :
    (generate_questions (fun _ => 0) (fun _ => none) ⟨"t", "d"⟩
      "10. Tell me\n11. B\n12. C\n13. D\n14. E").result =
        .ok ["10. Tell me", "11. B", "12. C", "13. D", "14. E"] ∧
    "10. Tell me" ∈ extractQuestions
      "10. Tell me\n11. B\n12. C\n13. D\n14. E" ∧
    matchesDigitDotSpace "10. Tell me" = false :=
  ⟨rfl, by decide, by decide⟩

/- ### Lemmas about the feedback normalization -/

theorem jlookup_jset_same (fields : List (String × JValue)) (k : String)
    (v0 v : JValue) (h : jlookup fields k = some v0) :
    jlookup (jset fields k v) k = some v := by
  induction fields with
  | nil => simp [jlookup] at h
  | cons p rest ih =>
    by_cases hp : (p.1 == k) = true
    · simp [jlookup, jset, hp]
    · simp only [jlookup, jset, hp, Bool.false_eq_true, if_false] at h ⊢
      exact ih h

theorem jlookup_jset_other (fields : List (String × JValue)) (k k2 : String)
    (v : JValue) (hne : k2 ≠ k) :
    jlookup (jset fields k v) k2 = jlookup fields k2 := by
  induction fields with
  | nil => rfl
  | cons p rest ih =>
    by_cases hp : (p.1 == k) = true
    · have hpk : p.1 = k := by simpa using hp
      have h1 : (k == k2) = false := by
        simp only [beq_eq_false_iff_ne, ne_eq]
        exact fun h => hne h.symm
      have h2 : (p.1 == k2) = false := by rw [hpk]; exact h1
      simp [jlookup, jset, hp, h1, h2, ih]
    · by_cases hp2 : (p.1 == k2) = true
      · simp [jlookup, jset, hp, hp2]
      · simp [jlookup, jset, hp, hp2, ih]

theorem normVal_ne_jstr (v : JValue) (s : String) : normVal v ≠ .jstr s := by
  cases v <;> simp [normVal]

/-- What one normalization step does to an object: the processed key's
value is `normVal` of the old one, every other key is untouched. -/
theorem normalizeListKey_spec (fields : List (String × JValue)) (k : String)
    (j' : JValue) (h : normalizeListKey (.jobj fields) k = some j') :
    ∃ fields2, j' = .jobj fields2 ∧
      jlookup fields2 k = (jlookup fields k).map normVal ∧
      ∀ k2, k2 ≠ k → jlookup fields2 k2 = jlookup fields k2 := by
  have h2 : normalizeListKeyFields fields k = some j' := h
  unfold normalizeListKeyFields at h2
  clear h
  rename' h2 => h
  cases hlk : jlookup fields k with
  | none => rw [hlk] at h; exact absurd h (by simp)
  | some v =>
    rw [hlk] at h
    cases v with
    | jstr s =>
      obtain rfl : JValue.jobj (jset fields k (.jarr [.jstr s])) = j' := by
        simpa using h
      refine ⟨_, rfl, ?_, fun k2 hk2 => jlookup_jset_other fields k k2 _ hk2⟩
      rw [jlookup_jset_same fields k _ _ hlk]
      rfl
    | jnull =>
      obtain rfl : JValue.jobj fields = j' := by simpa using h
      exact ⟨fields, rfl, by simp [hlk, normVal], fun k2 _ => rfl⟩
    | jbool b =>
      obtain rfl : JValue.jobj fields = j' := by simpa using h
      exact ⟨fields, rfl, by simp [hlk, normVal], fun k2 _ => rfl⟩
    | jnum q =>
      obtain rfl : JValue.jobj fields = j' := by simpa using h
      exact ⟨fields, rfl, by simp [hlk, normVal], fun k2 _ => rfl⟩
    | jarr xs =>
      obtain rfl : JValue.jobj fields = j' := by simpa using h
      exact ⟨fields, rfl, by simp [hlk, normVal], fun k2 _ => rfl⟩
    | jobj fs =>
      obtain rfl : JValue.jobj fields = j' := by simpa using h
      exact ⟨fields, rfl, by simp [hlk, normVal], fun k2 _ => rfl⟩

/-- One normalization step succeeds exactly when the key is present. -/
theorem normalizeListKey_present (fields : List (String × JValue)) (k : String)
    (v : JValue) (h : jlookup fields k = some v) :
    ∃ j', normalizeListKey (.jobj fields) k = some j' := by
  show ∃ j', normalizeListKeyFields fields k = some j'
  unfold normalizeListKeyFields
  rw [h]
  cases v <;> exact ⟨_, rfl⟩

theorem normalizeListKey_missing (fields : List (String × JValue)) (k : String)
    (h : jlookup fields k = none) :
    normalizeListKey (.jobj fields) k = none := by
  show normalizeListKeyFields fields k = none
  unfold normalizeListKeyFields
  rw [h]

/-- The three-step normalization, decomposed: the result is an object whose
three list keys hold `normVal` of the parsed values and whose other keys
are untouched. -/
theorem normalizeFeedback_spec (fields : List (String × JValue)) (j2 : JValue)
    (h : normalizeFeedback (.jobj fields) = some j2) :
    ∃ fields2, j2 = .jobj fields2 ∧
      (∀ k, k ∈ listFieldKeys →
        jlookup fields2 k = (jlookup fields k).map normVal) ∧
      (∀ k, k ∉ listFieldKeys → jlookup fields2 k = jlookup fields k) := by
  unfold normalizeFeedback at h
  cases h1 : normalizeListKey (.jobj fields) "strengths" with
  | none => rw [h1] at h; exact absurd h (by simp)
  | some ja =>
    rw [h1] at h
    simp only [Option.some_bind] at h
    obtain ⟨f1, rfl, hs1, ho1⟩ := normalizeListKey_spec fields "strengths" ja h1
    cases h2 : normalizeListKey (.jobj f1) "improvements" with
    | none => rw [h2] at h; exact absurd h (by simp)
    | some jb =>
      rw [h2] at h
      simp only [Option.some_bind] at h
      obtain ⟨f2, rfl, hs2, ho2⟩ := normalizeListKey_spec f1 "improvements" jb h2
      obtain ⟨f3, rfl, hs3, ho3⟩ := normalizeListKey_spec f2 "recommendations" j2 h
      refine ⟨f3, rfl, ?_, ?_⟩
      · intro k hk
        simp only [listFieldKeys, List.mem_cons, List.not_mem_nil, or_false] at hk
        rcases hk with rfl | rfl | rfl
        · rw [ho3 "strengths" (by decide), ho2 "strengths" (by decide), hs1]
        · rw [ho3 "improvements" (by decide), hs2,
            ho1 "improvements" (by decide)]
        · rw [hs3, ho2 "recommendations" (by decide),
            ho1 "recommendations" (by decide)]
      · intro k hk
        have m1 : ("strengths" : String) ∈ listFieldKeys := by decide
        have m2 : ("improvements" : String) ∈ listFieldKeys := by decide
        have m3 : ("recommendations" : String) ∈ listFieldKeys := by decide
        have n1 : k ≠ "strengths" := by
          intro he; rw [he] at hk; exact hk m1
        have n2 : k ≠ "improvements" := by
          intro he; rw [he] at hk; exact hk m2
        have n3 : k ≠ "recommendations" := by
          intro he; rw [he] at hk; exact hk m3
        rw [ho3 _ n3, ho2 _ n2, ho1 _ n1]

/-- If all three keys are present the normalization does not raise. -/
theorem normalizeFeedback_present (fields : List (String × JValue))
    (h : ∀ k, k ∈ listFieldKeys → ∃ v, jlookup fields k = some v) :
    ∃ j2, normalizeFeedback (.jobj fields) = some j2 := by
  obtain ⟨v1, hv1⟩ := h "strengths" (by decide)
  obtain ⟨ja, h1⟩ := normalizeListKey_present fields "strengths" v1 hv1
  obtain ⟨f1, rfl, hs1, ho1⟩ := normalizeListKey_spec fields "strengths" ja h1
  obtain ⟨v2, hv2⟩ := h "improvements" (by decide)
  have hv2b : jlookup f1 "improvements" = some v2 := by
    rw [ho1 "improvements" (by decide)]; exact hv2
  obtain ⟨jb, h2⟩ := normalizeListKey_present f1 "improvements" v2 hv2b
  obtain ⟨f2, rfl, hs2, ho2⟩ := normalizeListKey_spec f1 "improvements" jb h2
  obtain ⟨v3, hv3⟩ := h "recommendations" (by decide)
  have hv3b : jlookup f2 "recommendations" = some v3 := by
    rw [ho2 "recommendations" (by decide), ho1 "recommendations" (by decide)]
    exact hv3
  obtain ⟨jc, h3⟩ := normalizeListKey_present f2 "recommendations" v3 hv3b
  refine ⟨jc, ?_⟩
  unfold normalizeFeedback
  rw [h1]
  simp only [Option.some_bind]
  rw [h2]
  simp only [Option.some_bind]
  exact h3

/-- A missing list key makes the normalization raise. -/
theorem normalizeFeedback_missing (fields : List (String × JValue)) (k : String)
    (hk : k ∈ listFieldKeys) (h : jlookup fields k = none) :
    normalizeFeedback (.jobj fields) = none := by
  simp only [listFieldKeys, List.mem_cons, List.not_mem_nil, or_false] at hk
  rcases hk with rfl | rfl | rfl
  · unfold normalizeFeedback
    rw [normalizeListKey_missing fields _ h]
    rfl
  · cases h1 : normalizeListKey (.jobj fields) "strengths" with
    | none => unfold normalizeFeedback; rw [h1]; rfl
    | some ja =>
      obtain ⟨f1, rfl, _, ho1⟩ := normalizeListKey_spec fields "strengths" ja h1
      have hmiss : jlookup f1 "improvements" = none := by
        rw [ho1 "improvements" (by decide)]; exact h
      unfold normalizeFeedback
      rw [h1]
      simp only [Option.some_bind]
      rw [normalizeListKey_missing f1 _ hmiss]
      rfl
  · cases h1 : normalizeListKey (.jobj fields) "strengths" with
    | none => unfold normalizeFeedback; rw [h1]; rfl
    | some ja =>
      obtain ⟨f1, rfl, _, ho1⟩ := normalizeListKey_spec fields "strengths" ja h1
      cases h2 : normalizeListKey (.jobj f1) "improvements" with
      | none =>
        unfold normalizeFeedback
        rw [h1]
        simp only [Option.some_bind]
        rw [h2]
        rfl
      | some jb =>
        obtain ⟨f2, rfl, _, ho2⟩ := normalizeListKey_spec f1 "improvements" jb h2
        have hmiss : jlookup f2 "recommendations" = none := by
          rw [ho2 "recommendations" (by decide),
            ho1 "recommendations" (by decide)]
          exact h
        unfold normalizeFeedback
        rw [h1]
        simp only [Option.some_bind]
        rw [h2]
        simp only [Option.some_bind]
        exact normalizeListKey_missing f2 _ hmiss

/-- Normalization of a non-object (the parsed JSON being a list, string,
number, boolean or null) raises on the first subscript. -/
theorem normalizeFeedback_not_obj (j : JValue)
    (h : ∀ fields, j ≠ .jobj fields) : normalizeFeedback j = none := by
  cases j <;> first | rfl | exact absurd rfl (h _)

/- ### Fence stripping (claim C5) -/

theorem afterFirstNl_append (a b : List Char) (ha : nlChar ∉ a) :
    afterFirstNl (a ++ nlChar :: b) = some b := by
  induction a with
  | nil => simp [afterFirstNl]
  | cons c cs ih =>
    have hc : c ≠ nlChar := by
      intro he; exact ha (he ▸ List.mem_cons_self c cs)
    have ha2 : nlChar ∉ cs := fun hm => ha (List.mem_cons_of_mem _ hm)
    simp [afterFirstNl, hc, ih ha2]

theorem beforeLastNl_append (a b : List Char) (hb : nlChar ∉ b) :
    beforeLastNl (a ++ nlChar :: b) = a := by
  unfold beforeLastNl
  have hrev : (a ++ nlChar :: b).reverse = b.reverse ++ nlChar :: a.reverse := by
    simp [List.reverse_append]
  rw [hrev, afterFirstNl_append _ _ (by simpa using hb)]
  simp

/-- Claim C5: a feedback text assembled as fence line, JSON body, fence
line is stripped to exactly the body (first and last line dropped), and the
endpoint's result on the fenced text equals its result on the bare body. -/
theorem C5_fence_stripping (first body last : String)
    (hfence : fenceMarker.isPrefixOf first.data = true)
    (hf : nlChar ∉ first.data) (hl : nlChar ∉ last.data)
    (hb : fenceMarker.isPrefixOf body.data = false) :
    stripFences (first ++ "\n" ++ body ++ "\n" ++ last) = some body ∧
    processFeedback (first ++ "\n" ++ body ++ "\n" ++ last) =
      processFeedback body := by
  have hnl : ("\n" : String).data = [nlChar] := by decide
  have hdata : (first ++ "\n" ++ body ++ "\n" ++ last).data =
      first.data ++ nlChar :: (body.data ++ nlChar :: last.data) := by
    simp only [String.data_append, hnl, List.append_assoc,
      List.singleton_append]
    rfl
  have hpre2 : fenceMarker.isPrefixOf
      (first.data ++ nlChar :: (body.data ++ nlChar :: last.data)) = true := by
    rw [List.isPrefixOf_iff_prefix] at hfence ⊢
    exact hfence.trans (List.prefix_append _ _)
  have hstrip : stripFences (first ++ "\n" ++ body ++ "\n" ++ last) =
      some body := by
    unfold stripFences
    rw [hdata, if_pos hpre2,
      afterFirstNl_append first.data (body.data ++ nlChar :: last.data) hf]
    show some (String.mk (beforeLastNl (body.data ++ nlChar :: last.data))) =
      some body
    rw [beforeLastNl_append body.data last.data hl, mk_data]
  have hstrip2 : stripFences body = some body := by
    unfold stripFences
    rw [if_neg (by simp [hb])]
  refine ⟨hstrip, ?_⟩
  unfold processFeedback
  rw [hstrip, hstrip2]

/-- Witness for C5: a concrete fenced JSON feedback object parses exactly
like its unfenced body. -/
theorem C5_witness :
    stripFences ("```json" ++ "\n" ++
        "\x7b\"strengths\": [\"a\"], \"improvements\": [], \"recommendations\": []\x7d" ++
        "\n" ++ "```") =
      some "\x7b\"strengths\": [\"a\"], \"improvements\": [], \"recommendations\": []\x7d" ∧
    processFeedback ("```json" ++ "\n" ++
        "\x7b\"strengths\": [\"a\"], \"improvements\": [], \"recommendations\": []\x7d" ++
        "\n" ++ "```") =
      processFeedback
        "\x7b\"strengths\": [\"a\"], \"improvements\": [], \"recommendations\": []\x7d" :=
  C5_fence_stripping "```json"
    "\x7b\"strengths\": [\"a\"], \"improvements\": [], \"recommendations\": []\x7d"
    "```" (by decide) (by decide) (by decide) (by decide)

/- ### Normalization and error behaviour of analyze-responses
(claims C4, C6, C7) -/

/-- Claim C4: in a successfully analyzed response, each of the three
list-valued fields is the parsed value with a bare string wrapped into a
one-element sequence and a sequence left unchanged, and the normalization
itself never raises when the three keys are present. -/
theorem C4_scalar_to_sequence (fields : List (String × JValue)) :
    ((∀ k, k ∈ listFieldKeys → ∃ v, jlookup fields k = some v) →
      ∃ j2, normalizeFeedback (.jobj fields) = some j2) ∧
    (∀ j2, normalizeFeedback (.jobj fields) = some j2 →
      ∃ fields2, j2 = .jobj fields2 ∧
        ∀ k, k ∈ listFieldKeys → ∀ v, jlookup fields k = some v →
          jlookup fields2 k = some (normVal v)) ∧
    (∀ s, normVal (.jstr s) = .jarr [.jstr s]) ∧
    (∀ xs, normVal (.jarr xs) = .jarr xs) := by
  refine ⟨normalizeFeedback_present fields, ?_, fun s => rfl, fun xs => rfl⟩
  intro j2 h
  obtain ⟨fields2, rfl, hin, _⟩ := normalizeFeedback_spec fields j2 h
  refine ⟨fields2, rfl, ?_⟩
  intro k hk v hv
  rw [hin k hk, hv]
  rfl

/-- Witness for C4 at a concrete parsed object: a bare string `strengths`
is wrapped, a sequence `improvements` is kept. -/
theorem C4_witness :
    (∃ j2, normalizeFeedback (.jobj [("strengths", .jstr "s"),
      ("improvements", .jarr [.jstr "i"]), ("recommendations", .jarr [])]) =
        some j2) ∧
    ∀ j2, normalizeFeedback (.jobj [("strengths", .jstr "s"),
      ("improvements", .jarr [.jstr "i"]), ("recommendations", .jarr [])]) =
        some j2 →
      ∃ fields2, j2 = .jobj fields2 ∧
        jlookup fields2 "strengths" = some (.jarr [.jstr "s"]) ∧
        jlookup fields2 "improvements" = some (.jarr [.jstr "i"]) := by
  have h := C4_scalar_to_sequence [("strengths", .jstr "s"),
    ("improvements", .jarr [.jstr "i"]), ("recommendations", .jarr [])]
  refine ⟨h.1 ?_, ?_⟩
  · intro k hk
    fin_cases hk
    · exact ⟨_, rfl⟩
    · exact ⟨_, rfl⟩
    · exact ⟨_, rfl⟩
  · intro j2 hj2
    obtain ⟨fields2, rfl, hall⟩ := h.2.1 j2 hj2
    exact ⟨fields2, rfl,
      hall "strengths" (by decide) _ rfl,
      hall "improvements" (by decide) _ rfl⟩

/-- Claim C6 (amended): the failures that occur — no newline after a fence
marker, text that is not valid JSON, a parsed root that is not an object,
or a missing list-field key — all yield a 500 with no partial result, and
the endpoint only ever returns a normalized object or an error; but a
list-field of non-string, non-sequence type is NOT an error: it is
returned as parsed. -/
theorem C6_parse_failures (f : String) :
    (stripFences f = none → processFeedback f = .error 500) ∧
    (∀ t, stripFences f = some t → jsonLoads t = none →
      processFeedback f = .error 500) ∧
    (∀ t j, stripFences f = some t → jsonLoads t = some j →
      (∀ fields, j ≠ .jobj fields) → processFeedback f = .error 500) ∧
    (∀ t fields k, stripFences f = some t →
      jsonLoads t = some (.jobj fields) → k ∈ listFieldKeys →
      jlookup fields k = none → processFeedback f = .error 500) ∧
    (processFeedback f = .error 500 ∨ ∃ j, processFeedback f = .ok j) := by
  refine ⟨?_, ?_, ?_, ?_, ?_⟩
  · intro h; simp only [processFeedback, h]
  · intro t h1 h2; simp only [processFeedback, h1, h2]
  · intro t j h1 h2 h3
    simp only [processFeedback, h1, h2, normalizeFeedback_not_obj j h3]
  · intro t fields k h1 h2 hk hmiss
    simp only [processFeedback, h1, h2,
      normalizeFeedback_missing fields k hk hmiss]
  · cases h1 : stripFences f with
    | none => exact Or.inl (by simp only [processFeedback, h1])
    | some t =>
      cases h2 : jsonLoads t with
      | none => exact Or.inl (by simp only [processFeedback, h1, h2])
      | some j =>
        cases h3 : normalizeFeedback j with
        | none => exact Or.inl (by simp only [processFeedback, h1, h2, h3])
        | some j2 =>
          exact Or.inr ⟨j2, by simp only [processFeedback, h1, h2, h3]⟩

/-- Witness for C6: a concrete non-JSON fenced response yields a 500. -/
theorem C6_witness :
    processFeedback "```json\nnot json at all" = .error 500 :=
  (C6_parse_failures "```json\nnot json at all").2.1
    "not json at all" rfl rfl

/-- Counterexample to C6 as stated: a response whose `strengths` field has
the wrong type after normalization (a number, not a sequence of strings) is
not rejected — the endpoint returns it as a 200 success, and the returned
object is not a complete feedback report (it has no scores at all). -/
theorem C6_counterexample :
    processFeedback
      "\x7b\"strengths\": 1, \"improvements\": [], \"recommendations\": []\x7d" =
      .ok (.jobj [("strengths", .jnum 1), ("improvements", .jarr []),
        ("recommendations", .jarr [])]) ∧
    jlookup [("strengths", .jnum 1), ("improvements", .jarr []),
      ("recommendations", .jarr [])] "technical_score" = none :=
  ⟨rfl, rfl⟩

/-- Claim C7 (amended): a successfully returned feedback object always
contains the three list-valued fields and none of them is a bare string
(a parsed string has been wrapped); no other schema constraint — score
presence, score range, element types — is enforced. -/
theorem C7_returned_shape (f : String) (j : JValue)
    (hok : processFeedback f = .ok j) :
    ∃ fields, j = .jobj fields ∧
      ∀ k, k ∈ listFieldKeys →
        ∃ v, jlookup fields k = some v ∧ ∀ s, v ≠ .jstr s := by
  cases h1 : stripFences f with
  | none => simp [processFeedback, h1] at hok
  | some t =>
    cases h2 : jsonLoads t with
    | none => simp [processFeedback, h1, h2] at hok
    | some j0 =>
      cases h3 : normalizeFeedback j0 with
      | none => simp [processFeedback, h1, h2, h3] at hok
      | some j2 =>
        simp only [processFeedback, h1, h2, h3] at hok
        obtain rfl : j2 = j := by simpa using hok
        cases j0 with
        | jobj fields0 =>
          obtain ⟨fields2, rfl, hin, _⟩ := normalizeFeedback_spec fields0 _ h3
          refine ⟨fields2, rfl, ?_⟩
          intro k hk
          cases hlk : jlookup fields0 k with
          | none =>
            rw [normalizeFeedback_missing fields0 k hk hlk] at h3
            exact absurd h3 (by simp)
          | some v0 =>
            refine ⟨normVal v0, ?_, fun s => normVal_ne_jstr v0 s⟩
            rw [hin k hk, hlk]
            rfl
        | jnull =>
          rw [normalizeFeedback_not_obj _
            (by intro fields h; exact JValue.noConfusion h)] at h3
          exact absurd h3 (by simp)
        | jbool b =>
          rw [normalizeFeedback_not_obj _
            (by intro fields h; exact JValue.noConfusion h)] at h3
          exact absurd h3 (by simp)
        | jnum q =>
          rw [normalizeFeedback_not_obj _
            (by intro fields h; exact JValue.noConfusion h)] at h3
          exact absurd h3 (by simp)
        | jstr s =>
          rw [normalizeFeedback_not_obj _
            (by intro fields h; exact JValue.noConfusion h)] at h3
          exact absurd h3 (by simp)
        | jarr xs =>
          rw [normalizeFeedback_not_obj _
            (by intro fields h; exact JValue.noConfusion h)] at h3
          exact absurd h3 (by simp)

set_option maxRecDepth 8000 in
/-- Witness for C7 at a concrete successful response. -/
theorem C7_witness :
    ∃ fields,
      (.jobj [("strengths", .jarr [.jstr "s"]), ("improvements", .jarr []),
        ("recommendations", .jarr [])] : JValue) = .jobj fields ∧
      ∀ k, k ∈ listFieldKeys →
        ∃ v, jlookup fields k = some v ∧ ∀ s, v ≠ .jstr s :=
  C7_returned_shape
    "\x7b\"strengths\": \"s\", \"improvements\": [], \"recommendations\": []\x7d"
    (.jobj [("strengths", .jarr [.jstr "s"]), ("improvements", .jarr []),
      ("recommendations", .jarr [])]) rfl

set_option maxRecDepth 8000 in
/-- Counterexample to C7 as stated: a parsed response with
`technical_score` 11 (outside 0-10) and `strengths` `[42]` (not strings) is
returned successfully, and the result violates the declared FeedbackReport
schema. -/
theorem C7_counterexample :
    processFeedback
      ("\x7b\"technical_score\": 11, \"communication_score\": 3, " ++
       "\"overall_score\": 3, \"strengths\": [42], \"improvements\": \"ok\", " ++
       "\"recommendations\": []\x7d") =
      .ok (.jobj [("technical_score", .jnum 11), ("communication_score", .jnum 3),
        ("overall_score", .jnum 3), ("strengths", .jarr [.jnum 42]),
        ("improvements", .jarr [.jstr "ok"]), ("recommendations", .jarr [])]) ∧
    isSpecFeedbackReport
      (.jobj [("technical_score", .jnum 11), ("communication_score", .jnum 3),
        ("overall_score", .jnum 3), ("strengths", .jarr [.jnum 42]),
        ("improvements", .jarr [.jstr "ok"]), ("recommendations", .jarr [])]) =
      false :=
  ⟨rfl, rfl⟩

theorem splitNl_append (a b : List Char) (ha : nlChar ∉ a) :
    splitNl (a ++ nlChar :: b) = a :: splitNl b := by
  induction a with
  | nil => simp [splitNl]
  | cons c cs ih =>
    have hc : c ≠ nlChar := by
      intro he; exact ha (he ▸ List.mem_cons_self c cs)
    have ha2 : nlChar ∉ cs := fun hm => ha (List.mem_cons_of_mem _ hm)
    simp [splitNl, hc, ih ha2]

theorem splitNl_ne_nil (l : List Char) : splitNl l ≠ [] := by
  cases l with
  | nil => simp [splitNl]
  | cons c cs =>
    by_cases hc : c = nlChar
    · simp [splitNl, hc]
    · cases hs : splitNl cs <;> simp [splitNl, hc, hs]

theorem nl_not_mem_tagged (t1 t2 t3 : Char) (q : List Char)
    (h : nlChar ∉ q) (h1 : nlChar ≠ t1) (h2 : nlChar ≠ t2)
    (h3 : nlChar ≠ t3) : nlChar ∉ t1 :: t2 :: t3 :: q := by
  intro hm
  simp only [List.mem_cons] at hm
  rcases hm with hx | hx | hx | hx
  · exact h1 hx
  · exact h2 hx
  · exact h3 hx
  · exact h hx

theorem renderItem_eq (p : String × String) :
    renderItem p = ('Q' :: ':' :: ' ' :: p.1.data) ++
      nlChar :: (('A' :: ':' :: ' ' :: p.2.data) ++ [nlChar]) := by
  simp [renderItem]

theorem renderItems_cons_ne_nil (p : String × String)
    (rest : List (String × String)) : renderItems (p :: rest) ≠ [] := by
  cases rest <;> simp [renderItems, renderItem]

theorem parsePairLines_renderItems (answers : List (String × String))
    (hne : answers ≠ [])
    (hnl : ∀ p ∈ answers, nlChar ∉ p.1.data ∧ nlChar ∉ p.2.data) :
    parsePairLines (splitNl (renderItems answers)) = some answers := by
  induction answers with
  | nil => exact absurd rfl hne
  | cons p rest ih =>
    have hp := hnl p (List.mem_cons_self p rest)
    have hq : nlChar ∉ 'Q' :: ':' :: ' ' :: p.1.data :=
      nl_not_mem_tagged _ _ _ _ hp.1 (by decide) (by decide) (by decide)
    have ha : nlChar ∉ 'A' :: ':' :: ' ' :: p.2.data :=
      nl_not_mem_tagged _ _ _ _ hp.2 (by decide) (by decide) (by decide)
    cases rest with
    | nil =>
      have hsplit : splitNl (renderItems [p]) =
          [('Q' :: ':' :: ' ' :: p.1.data), ('A' :: ':' :: ' ' :: p.2.data), []] := by
        show splitNl (renderItem p) = _
        rw [renderItem_eq, splitNl_append _ _ hq]
        have : ('A' :: ':' :: ' ' :: p.2.data) ++ [nlChar] =
            ('A' :: ':' :: ' ' :: p.2.data) ++ nlChar :: [] := rfl
        rw [this, splitNl_append _ _ ha]
        rfl
      rw [hsplit]
      simp [parsePairLines, parseQLine, parseALine, mk_data]
    | cons p2 rest2 =>
      have hr : renderItems (p :: p2 :: rest2) =
          ('Q' :: ':' :: ' ' :: p.1.data) ++
            nlChar :: (('A' :: ':' :: ' ' :: p.2.data) ++
              nlChar :: (nlChar :: renderItems (p2 :: rest2))) := by
        show renderItem p ++ nlChar :: renderItems (p2 :: rest2) = _
        rw [renderItem_eq]
        simp
      have hsplit : splitNl (renderItems (p :: p2 :: rest2)) =
          ('Q' :: ':' :: ' ' :: p.1.data) ::
            ('A' :: ':' :: ' ' :: p.2.data) :: [] ::
              splitNl (renderItems (p2 :: rest2)) := by
        rw [hr, splitNl_append _ _ hq, splitNl_append _ _ ha]
        have : (nlChar :: renderItems (p2 :: rest2)) =
            [] ++ nlChar :: renderItems (p2 :: rest2) := rfl
        rw [this, splitNl_append _ _ (by simp)]
      have hrest : ∀ q ∈ p2 :: rest2, nlChar ∉ q.1.data ∧ nlChar ∉ q.2.data :=
        fun q hm => hnl q (List.mem_cons_of_mem _ hm)
      have hihyp := ih (by simp) hrest
      rw [hsplit]
      simp only [parsePairLines, parseQLine, parseALine, Option.some_bind]
      rw [if_neg (splitNl_ne_nil (renderItems (p2 :: rest2)))]
      simp [hihyp, mk_data]

/-- Claim C9: the transcript block of the analysis prompt renders the
caller's question/answer pairs in exactly the given order — reading the
block back recovers the pair list — and the user message sent to the
completion client is precisely prefix ++ transcript ++ suffix. -/
theorem C9_transcript_order (answers : List (String × String))
    (hnl : ∀ p ∈ answers, nlChar ∉ p.1.data ∧ nlChar ∉ p.2.data) :
    extractPairs (renderTranscript answers) = some answers ∧
    analysisMessages answers =
      [("system", SYSTEM_PROMPT),
       ("user", analysisPromptPrefix ++ renderTranscript answers ++
         analysisPromptSuffix)] := by
  refine ⟨?_, rfl⟩
  cases answers with
  | nil => rfl
  | cons p rest =>
    unfold extractPairs renderTranscript
    rw [if_neg (by simpa using renderItems_cons_ne_nil p rest)]
    exact parsePairLines_renderItems (p :: rest) (by simp) hnl

/-- Witness for C9 at a concrete two-question transcript. -/
theorem C9_witness :
    extractPairs (renderTranscript
      [("Tell me about X?", "I did Y."), ("Why Z?", "Because.")]) =
      some [("Tell me about X?", "I did Y."), ("Why Z?", "Because.")] :=
  (C9_transcript_order
    [("Tell me about X?", "I did Y."), ("Why Z?", "Because.")]
    (by decide)).1

theorem gen_result_ne_429 (h : String → Int) (cache : String → Option String)
    (jd : JobDescription) (resp : String) :
    (generate_questions h cache jd resp).result ≠ Except.error 429 := by
  simp only [generate_questions]
  cases hh : cacheHit cache (cacheKey h jd) with
  | some cached => cases hev : evalList cached <;> simp [hev]
  | none =>
    by_cases hlen : (extractQuestions resp).length = 5 <;> simp [hlen]

theorem processFeedback_ne_429 (f : String) :
    processFeedback f ≠ Except.error 429 := by
  cases h1 : stripFences f with
  | none => simp [processFeedback, h1]
  | some t =>
    cases h2 : jsonLoads t with
    | none => simp [processFeedback, h1, h2]
    | some j =>
      cases h3 : normalizeFeedback j with
      | none => simp [processFeedback, h1, h2, h3]
      | some j2 => simp [processFeedback, h1, h2, h3]

/-- Claim C8: starting a fresh window, the first five requests from a
client to either endpoint pass the limiter (none is a 429; the endpoint
body runs), and the sixth is rejected with a 429 doing no downstream work:
no cache read, no model call, no cache write. -/
theorem C8_rate_limit_boundary (h : String → Int)
    (cache : String → Option String) (j1 j2 j3 j4 j5 j6 : JobDescription)
    (r1 r2 r3 r4 r5 r6 : String) (f1 f2 f3 f4 f5 f6 : String) :
    (let t1 := serveGenerate h ⟨0, cache⟩ j1 r1
     let t2 := serveGenerate h t1.server j2 r2
     let t3 := serveGenerate h t2.server j3 r3
     let t4 := serveGenerate h t3.server j4 r4
     let t5 := serveGenerate h t4.server j5 r5
     let t6 := serveGenerate h t5.server j6 r6
     t1.result ≠ .error 429 ∧ t2.result ≠ .error 429 ∧
     t3.result ≠ .error 429 ∧ t4.result ≠ .error 429 ∧
     t5.result ≠ .error 429 ∧ t6.result = .error 429 ∧
     t6.cacheRead = false ∧ t6.modelCalled = false ∧
     t6.cacheWrote = false ∧ t6.server.cache = t5.server.cache) ∧
    (let a1 := serveAnalyze 0 f1
     let a2 := serveAnalyze a1.2.1 f2
     let a3 := serveAnalyze a2.2.1 f3
     let a4 := serveAnalyze a3.2.1 f4
     let a5 := serveAnalyze a4.2.1 f5
     let a6 := serveAnalyze a5.2.1 f6
     a1.1 ≠ .error 429 ∧ a2.1 ≠ .error 429 ∧ a3.1 ≠ .error 429 ∧
     a4.1 ≠ .error 429 ∧ a5.1 ≠ .error 429 ∧
     a6.1 = .error 429 ∧ a6.2.2 = false) := by
  constructor
  · simp +decide [serveGenerate, RATE_LIMIT]
    exact ⟨gen_result_ne_429 h _ _ _, gen_result_ne_429 h _ _ _,
      gen_result_ne_429 h _ _ _, gen_result_ne_429 h _ _ _,
      gen_result_ne_429 h _ _ _⟩
  · simp +decide [serveAnalyze, RATE_LIMIT]
    exact ⟨processFeedback_ne_429 f1, processFeedback_ne_429 f2,
      processFeedback_ne_429 f3, processFeedback_ne_429 f4,
      processFeedback_ne_429 f5⟩

end MockInterviewer
